import Mathlib

/-!
Verification of the enforcing subsystem of the redhat-cop/operator-utils
repository.  The Go sources are shallowly embedded: pure functions become
Lean functions, every network call (get / create / patch / delete /
validate against the API server) becomes an explicit outcome supplied
through an environment record, and the `LockedResourceManager` lifecycle
becomes a state-transition function that records the externally visible
actions it performs (deletions, stop, set, start) in a trace.
-/

namespace OperatorUtils

/-- JSON value tree, standing for `unstructured.Unstructured` content. -/
inductive Json where
  | null : Json
  | bool (b : Bool) : Json
  | num (n : Int) : Json
  | str (s : String) : Json
  | arr (elems : List Json) : Json
  | obj (fields : List (String × Json)) : Json
deriving Repr

mutual

/-- Structural equality on JSON trees, the embedding of `reflect.DeepEqual`
on unmarshalled JSON documents. -/
def Json.beq : Json → Json → Bool
  | .null, .null => true
  | .bool a, .bool b => a == b
  | .num a, .num b => a == b
  | .str a, .str b => a == b
  | .arr a, .arr b => Json.beqList a b
  | .obj a, .obj b => Json.beqFields a b
  | _, _ => false

def Json.beqList : List Json → List Json → Bool
  | [], [] => true
  | a :: as, b :: bs => Json.beq a b && Json.beqList as bs
  | _, _ => false

def Json.beqFields : List (String × Json) → List (String × Json) → Bool
  | [], [] => true
  | (k, v) :: as, (l, w) :: bs => k == l && Json.beq v w && Json.beqFields as bs
  | _, _ => false

end

instance : BEq Json := ⟨Json.beq⟩

mutual

theorem Json.beq_refl : (a : Json) → Json.beq a a = true
  | .null => rfl
  | .bool b => by simp [Json.beq]
  | .num n => by simp [Json.beq]
  | .str s => by simp [Json.beq]
  | .arr elems => by simp [Json.beq]; exact Json.beqList_refl elems
  | .obj fields => by simp [Json.beq]; exact Json.beqFields_refl fields

theorem Json.beqList_refl : (l : List Json) → Json.beqList l l = true
  | [] => rfl
  | a :: as => by
      simp [Json.beqList]
      exact ⟨Json.beq_refl a, Json.beqList_refl as⟩

theorem Json.beqFields_refl : (l : List (String × Json)) → Json.beqFields l l = true
  | [] => rfl
  | (k, v) :: as => by
      simp [Json.beqFields]
      exact ⟨Json.beq_refl v, Json.beqFields_refl as⟩

end

mutual

theorem Json.eq_of_beq : (a b : Json) → Json.beq a b = true → a = b
  | .null, .null, _ => rfl
  | .bool a, .bool b, h => by rw [show a = b by simpa [Json.beq] using h]
  | .num a, .num b, h => by rw [show a = b by simpa [Json.beq] using h]
  | .str a, .str b, h => by rw [show a = b by simpa [Json.beq] using h]
  | .arr a, .arr b, h => by rw [Json.eqList_of_beq a b (by simpa [Json.beq] using h)]
  | .obj a, .obj b, h => by rw [Json.eqFields_of_beq a b (by simpa [Json.beq] using h)]
  | .null, .bool _, h => nomatch h
  | .null, .num _, h => nomatch h
  | .null, .str _, h => nomatch h
  | .null, .arr _, h => nomatch h
  | .null, .obj _, h => nomatch h
  | .bool _, .null, h => nomatch h
  | .bool _, .num _, h => nomatch h
  | .bool _, .str _, h => nomatch h
  | .bool _, .arr _, h => nomatch h
  | .bool _, .obj _, h => nomatch h
  | .num _, .null, h => nomatch h
  | .num _, .bool _, h => nomatch h
  | .num _, .str _, h => nomatch h
  | .num _, .arr _, h => nomatch h
  | .num _, .obj _, h => nomatch h
  | .str _, .null, h => nomatch h
  | .str _, .bool _, h => nomatch h
  | .str _, .num _, h => nomatch h
  | .str _, .arr _, h => nomatch h
  | .str _, .obj _, h => nomatch h
  | .arr _, .null, h => nomatch h
  | .arr _, .bool _, h => nomatch h
  | .arr _, .num _, h => nomatch h
  | .arr _, .str _, h => nomatch h
  | .arr _, .obj _, h => nomatch h
  | .obj _, .null, h => nomatch h
  | .obj _, .bool _, h => nomatch h
  | .obj _, .num _, h => nomatch h
  | .obj _, .str _, h => nomatch h
  | .obj _, .arr _, h => nomatch h

theorem Json.eqList_of_beq : (a b : List Json) → Json.beqList a b = true → a = b
  | [], [], _ => rfl
  | [], _ :: _, h => nomatch h
  | _ :: _, [], h => nomatch h
  | a :: as, b :: bs, h => by
    have h1 : Json.beq a b = true ∧ Json.beqList as bs = true := by
      simpa [Json.beqList] using h
    rw [Json.eq_of_beq a b h1.1, Json.eqList_of_beq as bs h1.2]

theorem Json.eqFields_of_beq : (a b : List (String × Json)) → Json.beqFields a b = true → a = b
  | [], [], _ => rfl
  | [], _ :: _, h => nomatch h
  | _ :: _, [], h => nomatch h
  | (k, v) :: as, (l, w) :: bs, h => by
    have h1 : (k == l) = true ∧ Json.beq v w = true ∧ Json.beqFields as bs = true := by
      simpa [Json.beqFields, and_assoc] using h
    rw [show k = l from by simpa using h1.1, Json.eq_of_beq v w h1.2.1,
      Json.eqFields_of_beq as bs h1.2.2]

end

instance : LawfulBEq Json where
  eq_of_beq := fun h => Json.eq_of_beq _ _ h
  rfl := Json.beq_refl _

instance : DecidableEq Json :=
  fun a b => decidable_of_iff (Json.beq a b = true)
    ⟨Json.eq_of_beq a b, fun h => h ▸ Json.beq_refl a⟩

/-- Field lookup on a JSON object node (`nil` / absent for non-objects). -/
def Json.getField (j : Json) (key : String) : Option Json :=
  match j with
  | .obj fields => fields.lookup key
  | _ => none

/-- Embedding of `unstructured.Unstructured.GetGeneration`: reads
`.metadata.generation` as an integer, `0` when absent. -/
def getGeneration (j : Json) : Int :=
  match (j.getField "metadata").bind (fun m => m.getField "generation") with
  | some (.num n) => n
  | _ => 0

/-- Embedding of `GetName`: reads `.metadata.name`, `""` when absent. -/
def getName (j : Json) : String :=
  match (j.getField "metadata").bind (fun m => m.getField "name") with
  | some (.str s) => s
  | _ => ""

/-- Embedding of `GetNamespace`: reads `.metadata.namespace`, `""` when absent. -/
def getNamespaceOf (j : Json) : String :=
  match (j.getField "metadata").bind (fun m => m.getField "namespace") with
  | some (.str s) => s
  | _ => ""

/-- Reads the top-level `apiVersion` field of an unstructured object. -/
def getAPIVersion (j : Json) : String :=
  match j.getField "apiVersion" with
  | some (.str s) => s
  | _ => ""

/-- Reads the top-level `kind` field of an unstructured object. -/
def getKind (j : Json) : String :=
  match j.getField "kind" with
  | some (.str s) => s
  | _ => ""

/-- Embedding of `apis.GetKeyLong` (pkg/util/apis): the full key
`<apiversion>/<kind>/<namespace>/<name>` of an object. -/
def GetKeyLong (j : Json) : String :=
  getAPIVersion j ++ "/" ++ getKind j ++ "/" ++ getNamespaceOf j ++ "/" ++ getName j

/-- A `metav1.Condition` as used by the workers.  `LastTransitionTime` is a
wall-clock value and is omitted from the embedding. -/
structure Condition where
  ctype : String
  cstatus : Bool
  observedGeneration : Int
  reason : String
  message : String
deriving DecidableEq, Repr

/-- Embedding of `apis.AddOrReplaceCondition` (pkg/util/apis/condition.go):
replaces the first condition with the same `Type` in place, otherwise
appends the new condition. -/
def AddOrReplaceCondition (c : Condition) (conditions : List Condition) : List Condition :=
  match conditions with
  | [] => [c]
  | cond :: rest =>
    if c.ctype == cond.ctype then c :: rest
    else cond :: AddOrReplaceCondition c rest

theorem addOrReplace_of_not_mem (c : Condition) (cs : List Condition)
    (h : ∀ d ∈ cs, d.ctype ≠ c.ctype) :
    AddOrReplaceCondition c cs = cs ++ [c] := by
  induction cs with
  | nil => rfl
  | cons cond rest ih =>
    have hne : (c.ctype == cond.ctype) = false := by
      simp only [beq_eq_false_iff_ne, ne_eq]
      exact fun he => (h cond (List.mem_cons_self _ _)) he.symm
    simp only [AddOrReplaceCondition, hne, Bool.false_eq_true, if_false, List.cons_append,
      List.cons.injEq, true_and]
    exact ih (fun d hd => h d (List.mem_cons_of_mem _ hd))

theorem addOrReplace_replaces (c old : Condition) (pre post : List Condition)
    (hpre : ∀ d ∈ pre, d.ctype ≠ c.ctype) (hold : old.ctype = c.ctype) :
    AddOrReplaceCondition c (pre ++ old :: post) = pre ++ c :: post := by
  induction pre with
  | nil =>
    simp only [List.nil_append, AddOrReplaceCondition, hold, beq_self_eq_true, if_true]
  | cons p pre ih =>
    have hne : (c.ctype == p.ctype) = false := by
      simp only [beq_eq_false_iff_ne, ne_eq]
      exact fun he => (hpre p (List.mem_cons_self _ _)) he.symm
    simp only [List.cons_append, AddOrReplaceCondition, hne, Bool.false_eq_true, if_false,
      List.cons.injEq, true_and]
    exact ih (fun d hd => hpre d (List.mem_cons_of_mem _ hd))

theorem mem_map_ctype_addOrReplace {x : String} (c : Condition) (cs : List Condition)
    (h : x ∈ (AddOrReplaceCondition c cs).map Condition.ctype) :
    x = c.ctype ∨ x ∈ cs.map Condition.ctype := by
  induction cs with
  | nil =>
    simp only [AddOrReplaceCondition, List.map_cons, List.map_nil, List.mem_singleton] at h
    exact Or.inl h
  | cons cond rest ih =>
    by_cases hc : (c.ctype == cond.ctype) = true
    · simp only [AddOrReplaceCondition, hc, if_true, List.map_cons, List.mem_cons] at h
      rcases h with h | h
      · exact Or.inl h
      · exact Or.inr (by simp only [List.map_cons, List.mem_cons]; exact Or.inr h)
    · simp only [AddOrReplaceCondition, hc, Bool.false_eq_true, if_false, List.map_cons,
        List.mem_cons] at h
      rcases h with h | h
      · exact Or.inr (by simp only [List.map_cons, List.mem_cons]; exact Or.inl h)
      · rcases ih h with h | h
        · exact Or.inl h
        · exact Or.inr (by simp only [List.map_cons, List.mem_cons]; exact Or.inr h)

theorem addOrReplace_nodup (c : Condition) (cs : List Condition)
    (h : (cs.map Condition.ctype).Nodup) :
    ((AddOrReplaceCondition c cs).map Condition.ctype).Nodup := by
  induction cs with
  | nil => simp [AddOrReplaceCondition]
  | cons cond rest ih =>
    simp only [List.map_cons, List.nodup_cons] at h
    obtain ⟨hni, hnd⟩ := h
    by_cases hc : (c.ctype == cond.ctype) = true
    · have hce : c.ctype = cond.ctype := by simpa using hc
      simp only [AddOrReplaceCondition, hc, if_true, List.map_cons, List.nodup_cons]
      exact ⟨by rw [hce]; exact hni, hnd⟩
    · have hce : c.ctype ≠ cond.ctype := by simpa using hc
      simp only [AddOrReplaceCondition, hc, Bool.false_eq_true, if_false, List.map_cons,
        List.nodup_cons]
      refine ⟨fun hmem => ?_, ih hnd⟩
      rcases mem_map_ctype_addOrReplace c rest hmem with he | he
      · exact hce he.symm
      · exact hni he

/-- C8: adding a condition to a worker's condition list replaces in place the
existing condition of the same type when one is present (so the conditions
of other types, and their order, are unchanged) and appends it otherwise;
a list holding at most one condition per type keeps that property. -/
theorem addOrReplaceCondition_spec (c : Condition) (cs : List Condition)
    (hnodup : (cs.map Condition.ctype).Nodup) :
    ((∀ d ∈ cs, d.ctype ≠ c.ctype) → AddOrReplaceCondition c cs = cs ++ [c])
    ∧ (∀ pre old post, cs = pre ++ old :: post → old.ctype = c.ctype →
        AddOrReplaceCondition c cs = pre ++ c :: post)
    ∧ ((AddOrReplaceCondition c cs).map Condition.ctype).Nodup := by
  refine ⟨addOrReplace_of_not_mem c cs, ?_, addOrReplace_nodup c cs hnodup⟩
  intro pre old post hsplit hold
  subst hsplit
  refine addOrReplace_replaces c old pre post ?_ hold
  intro d hd he
  have hno : (pre.map Condition.ctype ++ old.ctype :: post.map Condition.ctype).Nodup := by
    simpa using hnodup
  rw [List.nodup_append] at hno
  have hdc : d.ctype ∈ pre.map Condition.ctype := List.mem_map_of_mem _ hd
  have : d.ctype ∈ old.ctype :: post.map Condition.ctype := by
    simp only [List.mem_cons]
    exact Or.inl (he.trans hold.symm)
  exact hno.2.2 hdc this

theorem addOrReplaceCondition_spec_witness :
    (([⟨"ReconcileError", true, 0, "r", "m"⟩] : List Condition).map Condition.ctype).Nodup ∧
    AddOrReplaceCondition ⟨"ReconcileSuccess", true, 3, "ok", ""⟩
      [⟨"ReconcileError", true, 0, "r", "m"⟩] =
      [⟨"ReconcileError", true, 0, "r", "m"⟩, ⟨"ReconcileSuccess", true, 3, "ok", ""⟩] := by
  refine ⟨by decide, ?_⟩
  exact (addOrReplaceCondition_spec ⟨"ReconcileSuccess", true, 3, "ok", ""⟩
    [⟨"ReconcileError", true, 0, "r", "m"⟩] (by decide)).1 (by decide)

/-- Removes the first field named `key` from an object's field list
(RFC-6902 `remove` on an object member). -/
def removeField : List (String × Json) → String → List (String × Json)
  | [], _ => []
  | (k, v) :: rest, key => if k == key then rest else (k, v) :: removeField rest key

/-- Replaces the value of the first field named `key`. -/
def setField : List (String × Json) → String → Json → List (String × Json)
  | [], _, _ => []
  | (k, v) :: rest, key, nv =>
    if k == key then (k, nv) :: rest else (k, v) :: setField rest key nv

/-- Result of one RFC-6902 `remove`: success, a tolerated failure (the
"Unable to remove nonexistent key" / "doc is missing path" errors that
`FilterOutPaths` skips), or a fatal error that `FilterOutPaths`
propagates. -/
inductive RemoveResult where
  | removed (j : Json) : RemoveResult
  | missing : RemoveResult
  | fatal (msg : String) : RemoveResult
deriving Repr

/-- Digit run of `strconv.Atoi`: non-empty, all decimal digits. -/
def parseDigits (l : List Char) : Option Nat :=
  match l with
  | [] => none
  | _ => go l 0
where
  go : List Char → Nat → Option Nat
    | [], acc => some acc
    | c :: rest, acc =>
      if c.isDigit then go rest (acc * 10 + (c.toNat - 48)) else none

/-- Embedding of `strconv.Atoi`: an optional sign followed by digits. -/
def parseAtoi (s : List Char) : Option Int :=
  match s with
  | [] => none
  | c :: rest =>
    if c = '-' then (parseDigits rest).map (fun n => -(n : Int))
    else if c = '+' then (parseDigits rest).map (fun n => (n : Int))
    else (parseDigits (c :: rest)).map (fun n => (n : Int))

/-- Array-index resolution of the `evanphx/json-patch` `partialArray`
accessors: `strconv.Atoi` the token, reject an index at or beyond the
length or below the negated length, and wrap a negative index around. -/
def resolveArrayIndex (k : String) (len : Nat) : Except String Nat :=
  match parseAtoi k.data with
  | none => .error ("strconv.Atoi: parsing " ++ k ++ ": invalid syntax")
  | some idx =>
    if (len : Int) ≤ idx then .error "Unable to access invalid index"
    else if idx < -(len : Int) then .error "Unable to access invalid index"
    else .ok (if idx < 0 then (idx + (len : Int)).toNat else idx.toNat)

/-- RFC-6902 `remove` at a parsed JSON-pointer path, as implemented by
`evanphx/json-patch`: every failure while walking the parent path
(`findObject`) is the tolerated "doc is missing path"; a missing object
key at the final token is the tolerated "nonexistent key"; a bad or
out-of-range array index at the final token is a fatal error. -/
def removeAtPath : Json → List String → RemoveResult
  | _, [] => .missing
  | j, [k] =>
    match j with
    | .obj fields =>
      if (fields.lookup k).isSome then .removed (.obj (removeField fields k)) else .missing
    | .arr elems =>
      match resolveArrayIndex k elems.length with
      | .ok i => .removed (.arr (elems.eraseIdx i))
      | .error e => .fatal e
    | _ => .missing
  | j, k :: k2 :: rest =>
    match j with
    | .obj fields =>
      match fields.lookup k with
      | some v =>
        match removeAtPath v (k2 :: rest) with
        | .removed v1 => .removed (.obj (setField fields k v1))
        | r => r
      | none => .missing
    | .arr elems =>
      match resolveArrayIndex k elems.length with
      | .ok i =>
        match elems.get? i with
        | some v =>
          match removeAtPath v (k2 :: rest) with
          | .removed v1 => .removed (.arr (elems.set i v1))
          | r => r
        | none => .missing
      | .error _ => .missing
    | _ => .missing

/-- Character-level `strings.ReplaceAll` for a single-character pattern. -/
def replaceChar (a b : Char) (l : List Char) : List Char :=
  l.map (fun c => if c = a then b else c)

/-- Character-level `strings.TrimPrefix` for the prefix `$`. -/
def trimDollar (l : List Char) : List Char :=
  match l with
  | c :: rest => if c = '$' then rest else c :: rest
  | [] => []

/-- Character-level `strings.Split` on a separator character. -/
def splitOnChar (sep : Char) : List Char → List (List Char)
  | [] => [[]]
  | c :: rest =>
    let r := splitOnChar sep rest
    if c = sep then [] :: r
    else
      match r with
      | h :: t => (c :: h) :: t
      | [] => [[c]]

/-- Embedding of `getMergePathFromJSONPath`
(lockedresource/filter-out-paths): converts a JSON path such as
`.spec.replicas` into a JSON-pointer string such as `/spec/replicas`. -/
def getMergePathFromJSONPath (jsonPath : String) : String :=
  let p1 := trimDollar jsonPath.data
  let p2 := if p1.getLast? = some ']' then p1.dropLast.dropLast else p1
  let p3 := replaceChar ']' '.' (replaceChar '[' '.' p2)
  String.mk (replaceChar '.' '/' p3)

/-- Splits a JSON-pointer string into its reference tokens. -/
def parsePointer (s : String) : List String :=
  match splitOnChar '/' s.data with
  | [] :: rest => rest.map (fun cs => String.mk cs)
  | l => l.map (fun cs => String.mk cs)

/-- Embedding of `lockedresource.FilterOutPaths`: applies one RFC-6902
`remove` per excluded JSON path, tolerating the "nonexistent key" and
"doc is missing path" errors (the document is kept and the loop
continues) and returning any other patch-apply error. -/
def FilterOutPaths (o : Json) : List String → Except String Json
  | [] => .ok o
  | jsonPath :: rest =>
    match removeAtPath o (parsePointer (getMergePathFromJSONPath jsonPath)) with
    | .removed doc1 => FilterOutPaths doc1 rest
    | .missing => FilterOutPaths o rest
    | .fatal e => .error e

def ReconcileErrorType : String := "ReconcileError"
def ReconcileErrorReason : String := "LastReconcileCycleFailed"
def ReconcileSuccessType : String := "ReconcileSuccess"
def ReconcileSuccessReason : String := "LastReconcileCycleSucceded"

/-- The condition built by `manageSuccess` / `manageSuccessNoInstance`
(resource-reconciler.go): type `ReconcileSuccess` with the given
observed generation. -/
def successCondition (gen : Int) : Condition :=
  ⟨ReconcileSuccessType, true, gen, ReconcileSuccessReason, ""⟩

/-- The condition built by `manageError` / `manageErrorNoInstance`:
type `ReconcileError` carrying the error message. -/
def errorCondition (gen : Int) (msg : String) : Condition :=
  ⟨ReconcileErrorType, true, gen, ReconcileErrorReason, msg⟩

/-- Embedding of `LockedResourceReconciler.isEqual`: deep equality of
the two stripped documents; an error from either strip is returned. -/
def isEqual (resource : Json) (excludePaths : List String) (liveObj : Json) :
    Except String Bool :=
  match FilterOutPaths resource excludePaths with
  | .error e => .error e
  | .ok left =>
    match FilterOutPaths liveObj excludePaths with
    | .error e => .error e
    | .ok right => .ok (Json.beq left right)

/-- Outcome of the dynamic-client `Get` call in `Reconcile`. -/
inductive GetResult where
  | found (o : Json) : GetResult
  | notFound : GetResult
  | getError (msg : String) : GetResult
deriving Repr

/-- Outcomes of the cluster calls made by one `Reconcile` pass: dynamic
client acquisition, `Get`, `CreateOrUpdateResource` and `Patch`. -/
structure ResourceClientEnv where
  clientErr : Option String
  get : GetResult
  createErr : Option String
  patchErr : Option String

def MergePatchType : String := "application/merge-patch+json"

/-- Externally visible effects of one `Reconcile` pass: the creation
submitted (if any), the patch submitted (patch type and body, if any),
the worker's condition list after the pass, and the returned error. -/
structure ReconcileEffects where
  created : Option Json
  patched : Option (String × Json)
  status : List Condition
  rerr : Option String

/-- Embedding of `LockedResourceReconciler.Reconcile`
(resource-reconciler.go, `Reconcile` / `isEqual` / `manage*`): fetch the
live object; recreate it when not found; otherwise compare the stripped
forms and, when different, submit a merge patch equal to the stripped
declared resource. -/
def LockedReconcile (resource : Json) (excludePaths : List String) (status : List Condition)
    (env : ResourceClientEnv) : ReconcileEffects :=
  match env.clientErr with
  | some e => ⟨none, none, AddOrReplaceCondition (errorCondition 0 e) status, some e⟩
  | none =>
    match env.get with
    | .notFound =>
      match env.createErr with
      | some e => ⟨some resource, none, AddOrReplaceCondition (errorCondition 0 e) status, some e⟩
      | none => ⟨some resource, none, AddOrReplaceCondition (successCondition 0) status, none⟩
    | .getError e =>
      ⟨none, none, AddOrReplaceCondition (errorCondition 0 e) status, some e⟩
    | .found liveObj =>
      match isEqual resource excludePaths liveObj with
      | .error e =>
        ⟨none, none, AddOrReplaceCondition (errorCondition (getGeneration liveObj) e) status,
          some e⟩
      | .ok equal =>
        if equal then
          ⟨none, none, AddOrReplaceCondition (successCondition (getGeneration liveObj)) status,
            none⟩
        else
          match FilterOutPaths resource excludePaths with
          | .error e =>
            ⟨none, none,
              AddOrReplaceCondition (errorCondition (getGeneration liveObj) e) status, some e⟩
          | .ok patchBody =>
            match env.patchErr with
            | some e =>
              ⟨none, some (MergePatchType, patchBody),
                AddOrReplaceCondition (errorCondition (getGeneration liveObj) e) status, some e⟩
            | none =>
              ⟨none, some (MergePatchType, patchBody),
                AddOrReplaceCondition (successCondition (getGeneration liveObj)) status, none⟩

/-- C1: when the live object is found, equal stripped forms yield a
`ReconcileSuccess` condition with `observedGeneration` equal to the live
generation and no patch; unequal stripped forms yield a merge patch whose
body is `strip(declared, excludedPaths)`, with `ReconcileSuccess` on patch
success and `ReconcileError` on patch failure; a strip failure yields
`ReconcileError` with no patch. -/
theorem lockedReconcile_found_spec (resource : Json) (excludePaths : List String)
    (status : List Condition) (env : ResourceClientEnv) (liveObj : Json)
    (hclient : env.clientErr = none) (hget : env.get = .found liveObj) :
    (isEqual resource excludePaths liveObj = .ok true →
      LockedReconcile resource excludePaths status env =
        ⟨none, none, AddOrReplaceCondition (successCondition (getGeneration liveObj)) status,
          none⟩)
    ∧ (isEqual resource excludePaths liveObj = .ok false →
      ∃ patchBody, FilterOutPaths resource excludePaths = .ok patchBody
        ∧ (LockedReconcile resource excludePaths status env).patched =
            some (MergePatchType, patchBody)
        ∧ (env.patchErr = none →
            LockedReconcile resource excludePaths status env =
              ⟨none, some (MergePatchType, patchBody),
                AddOrReplaceCondition (successCondition (getGeneration liveObj)) status, none⟩)
        ∧ (∀ e, env.patchErr = some e →
            LockedReconcile resource excludePaths status env =
              ⟨none, some (MergePatchType, patchBody),
                AddOrReplaceCondition (errorCondition (getGeneration liveObj) e) status,
                some e⟩))
    ∧ (∀ e, isEqual resource excludePaths liveObj = .error e →
      LockedReconcile resource excludePaths status env =
        ⟨none, none, AddOrReplaceCondition (errorCondition (getGeneration liveObj) e) status,
          some e⟩) := by
  refine ⟨?_, ?_, ?_⟩
  · intro heq
    simp only [LockedReconcile, hclient, hget, heq, if_true]
  · intro hne
    rcases hf : FilterOutPaths resource excludePaths with e | patchBody
    · exfalso
      simp only [isEqual, hf] at hne
      exact nomatch hne
    · refine ⟨patchBody, rfl, ?_, ?_, ?_⟩
      · simp only [LockedReconcile, hclient, hget, hne, Bool.false_eq_true, if_false, hf]
        cases env.patchErr <;> rfl
      · intro hp
        simp only [LockedReconcile, hclient, hget, hne, Bool.false_eq_true, if_false, hf, hp]
      · intro e hp
        simp only [LockedReconcile, hclient, hget, hne, Bool.false_eq_true, if_false, hf, hp]
  · intro e heq
    simp only [LockedReconcile, hclient, hget, heq]

/-- C2: when the live object is not found, the worker creates the object
from the declared template; on success it records `ReconcileSuccess` with
`observedGeneration = 0`, on failure `ReconcileError` with
`observedGeneration = 0`. -/
theorem lockedReconcile_notFound_spec (resource : Json) (excludePaths : List String)
    (status : List Condition) (env : ResourceClientEnv)
    (hclient : env.clientErr = none) (hget : env.get = .notFound) :
    (LockedReconcile resource excludePaths status env).created = some resource
    ∧ (env.createErr = none →
        LockedReconcile resource excludePaths status env =
          ⟨some resource, none, AddOrReplaceCondition (successCondition 0) status, none⟩)
    ∧ (∀ e, env.createErr = some e →
        LockedReconcile resource excludePaths status env =
          ⟨some resource, none, AddOrReplaceCondition (errorCondition 0 e) status, some e⟩) := by
  refine ⟨?_, ?_, ?_⟩
  · simp only [LockedReconcile, hclient, hget]
    cases env.createErr <;> rfl
  · intro hc
    simp only [LockedReconcile, hclient, hget, hc]
  · intro e hc
    simp only [LockedReconcile, hclient, hget, hc]

/-- A concrete declared ConfigMap used to exercise the worker model. -/
def sampleDeclared : Json :=
  .obj [("apiVersion", .str "v1"), ("kind", .str "ConfigMap"),
        ("metadata", .obj [("name", .str "cm-a"), ("namespace", .str "ns1")]),
        ("data", .obj [("foo", .str "bar")])]

/-- A concrete live copy of `sampleDeclared` at generation 2 whose
difference with the declaration lies entirely under `.metadata`. -/
def sampleLive : Json :=
  .obj [("apiVersion", .str "v1"), ("kind", .str "ConfigMap"),
        ("metadata", .obj [("name", .str "cm-a"), ("namespace", .str "ns1"),
          ("generation", .num 2)]),
        ("data", .obj [("foo", .str "bar")])]

theorem lockedReconcile_found_spec_witness :
    isEqual sampleDeclared [".metadata"] sampleLive = .ok true ∧
    LockedReconcile sampleDeclared [".metadata"] [] ⟨none, .found sampleLive, none, none⟩ =
      ⟨none, none, [successCondition 2], none⟩ := by
  refine ⟨rfl, ?_⟩
  exact (lockedReconcile_found_spec sampleDeclared [".metadata"] []
    ⟨none, .found sampleLive, none, none⟩ sampleLive rfl rfl).1 rfl

/-- A declared Pod whose `.spec.containers` is an array, so the excluded
path `.spec.containers.name` puts a non-numeric token on an array. -/
def arrDeclared : Json :=
  .obj [("apiVersion", .str "v1"), ("kind", .str "Pod"),
        ("metadata", .obj [("name", .str "p1"), ("namespace", .str "ns1")]),
        ("spec", .obj [("containers", .arr [.obj [("name", .str "c1")]])])]

/-- A live copy of `arrDeclared` at generation 3 with a drifted container
name. -/
def arrLive : Json :=
  .obj [("apiVersion", .str "v1"), ("kind", .str "Pod"),
        ("metadata", .obj [("name", .str "p1"), ("namespace", .str "ns1"),
          ("generation", .num 3)]),
        ("spec", .obj [("containers", .arr [.obj [("name", .str "c2")]])])]

/-- A non-numeric final token on an array is a fatal strip error: the
worker records `ReconcileError` (with the live generation) and submits no
patch, exactly as `Reconcile` does when `isEqual` returns an error. -/
theorem filterOutPaths_fatal_example :
    FilterOutPaths arrDeclared [".spec.containers.name"] =
      .error "strconv.Atoi: parsing name: invalid syntax"
    ∧ LockedReconcile arrDeclared [".spec.containers.name"] []
        ⟨none, .found arrLive, none, none⟩ =
      ⟨none, none, [errorCondition 3 "strconv.Atoi: parsing name: invalid syntax"],
        some "strconv.Atoi: parsing name: invalid syntax"⟩ := ⟨rfl, rfl⟩

theorem lockedReconcile_notFound_spec_witness :
    LockedReconcile sampleDeclared [".metadata"] [] ⟨none, .notFound, none, none⟩ =
      ⟨some sampleDeclared, none, [successCondition 0], none⟩ :=
  (lockedReconcile_notFound_spec sampleDeclared [".metadata"] []
    ⟨none, .notFound, none, none⟩ rfl rfl).2.1 rfl

/-- Embedding of `lockedresource.LockedResource`: an unstructured object
together with the JSON paths excluded from comparison. -/
structure LockedResource where
  obj : Json
  excludedPaths : List String
deriving DecidableEq, Repr

/-- Embedding of `lockedresource.DefaultExcludedPaths`. -/
def DefaultExcludedPaths : List String := [".metadata", ".status", ".spec.replicas"]

/-- A label selector restricted to `matchLabels` requirements
(the only selector form the claims exercise). -/
structure Selector where
  matchLabels : List (String × String)
deriving DecidableEq, Repr

/-- Embedding of `TargetObjectReference` (api/v1alpha1/patch_types.go). -/
structure TargetObjectReference where
  apiVersion : String
  kind : String
  nspace : String
  name : String
  labelSelector : Option Selector
  annotSelector : Option Selector
deriving DecidableEq, Repr

/-- Embedding of `SourceObjectReference` (api/v1alpha1/patch_types.go). -/
structure SourceObjectReference where
  apiVersion : String
  kind : String
  nspace : String
  name : String
  fieldPath : String
deriving DecidableEq, Repr

/-- Embedding of `lockedpatch.LockedPatch` (the revision carrying an `ID`
field); the compiled template is represented by its source text. -/
structure LockedPatch where
  id : String
  sourceObjectRefs : List SourceObjectReference
  targetObjectRef : TargetObjectReference
  patchType : String
  patchTemplate : String
deriving DecidableEq, Repr

/-- The initial `Initializing` condition installed by
`NewLockedObjectReconciler` / `NewLockedPatchReconciler`. -/
def initializingCondition (gen : Int) : Condition :=
  ⟨"Initializing", true, gen, "ReconcilerManagerRestarting", ""⟩

/-- The observable state of one `LockedResourceReconciler` held by the
manager: its declared resource and its condition list. -/
structure ResourceReconcilerState where
  resource : Json
  excludePaths : List String
  status : List Condition
deriving DecidableEq, Repr

/-- The observable state of one `LockedPatchReconciler`: its patch and its
per-target condition map (`target key → conditions`). -/
structure PatchReconcilerState where
  patch : LockedPatch
  status : List (String × List Condition)
deriving DecidableEq, Repr

/-- Embedding of `LockedResourceManager`: the runtime-host started flag,
the enforced sets and the worker states held from the last start. -/
structure LockedResourceManager where
  started : Bool
  resources : List LockedResource
  patches : List LockedPatch
  resourceReconcilers : List ResourceReconcilerState
  patchReconcilers : List PatchReconcilerState
deriving DecidableEq, Repr

/-- Cluster-visible actions performed by the manager lifecycle, in the
order they are submitted. -/
inductive Action where
  | deleteResource (key : String) : Action
  | stopManager : Action
  | setResources (rs : List LockedResource) : Action
  | setPatches (ps : List LockedPatch) : Action
  | startManager : Action
deriving DecidableEq, Repr

/-- Outcomes of the cluster calls made by the manager: per-key deletion
results, validation of resources and patches against the live API server,
and creation of a new controller manager. -/
structure ManagerEnv where
  deleteErr : String → Option String
  validateResourcesErr : List LockedResource → Option String
  validatePatchesErr : List LockedPatch → Option String
  newManagerErr : Option String

/-- Embedding of `ReconcilerBase.DeleteUnstructuredResources`
(pkg/util/reconciler.go): deletes each object in order and fails fast on
the first error. -/
def DeleteUnstructuredResources (env : ManagerEnv) : List Json → List Action × Option String
  | [] => ([], none)
  | o :: rest =>
    match env.deleteErr (GetKeyLong o) with
    | some e => ([Action.deleteResource (GetKeyLong o)], some e)
    | none =>
      let r := DeleteUnstructuredResources env rest
      (Action.deleteResource (GetKeyLong o) :: r.1, r.2)

/-- Embedding of `LockedResourceManager.SetResources`
(lockedresource-manager, ID revision): refuses while started, validates
the resources against the live API server, then replaces the enforced
resource set. -/
def SetResources (env : ManagerEnv) (lrm : LockedResourceManager)
    (resources : List LockedResource) :
    List Action × Option String × LockedResourceManager :=
  if lrm.started then ([], some "cannot set resources while enforcing is on", lrm)
  else
    match env.validateResourcesErr resources with
    | some e => ([], some e, lrm)
    | none =>
      ([Action.setResources resources], none,
        ⟨lrm.started, resources, lrm.patches, lrm.resourceReconcilers, lrm.patchReconcilers⟩)

/-- The patch-ID uniqueness loop of `LockedResourceManager.SetPatches`:
every ID must be non-empty and not seen before. -/
def checkPatchIDs : List String → List LockedPatch → Option String
  | _, [] => none
  | seen, p :: rest =>
    if p.id == "" then some "lockedPatch.ID must be initialized"
    else if seen.contains p.id then some ("Duplicate patch id: " ++ p.id)
    else checkPatchIDs (p.id :: seen) rest

/-- Embedding of `LockedResourceManager.SetPatches` (ID revision): refuses
while started, verifies patch-ID uniqueness and non-emptiness, validates
the patches, then replaces the enforced patch set. -/
def SetPatches (env : ManagerEnv) (lrm : LockedResourceManager)
    (patches : List LockedPatch) :
    List Action × Option String × LockedResourceManager :=
  if lrm.started then ([], some "cannot set resources while enforcing is on", lrm)
  else
    match checkPatchIDs [] patches with
    | some e => ([], some e, lrm)
    | none =>
      match env.validatePatchesErr patches with
      | some e => ([], some e, lrm)
      | none =>
        ([Action.setPatches patches], none,
          ⟨lrm.started, lrm.resources, patches, lrm.resourceReconcilers, lrm.patchReconcilers⟩)

/-- Embedding of `StoppableManager.Stop` as seen from the manager: cancels
the watch-loop context when started.  Combined with the optional resource
deletion of `LockedResourceManager.Stop`. -/
def Stop (env : ManagerEnv) (lrm : LockedResourceManager) (deleteResources : Bool) :
    List Action × Option String × LockedResourceManager :=
  let stopTrace : List Action := if lrm.started then [Action.stopManager] else []
  let lrm1 : LockedResourceManager :=
    ⟨false, lrm.resources, lrm.patches, lrm.resourceReconcilers, lrm.patchReconcilers⟩
  if deleteResources then
    let d := DeleteUnstructuredResources env (lrm1.resources.map (fun r => r.obj))
    (stopTrace ++ d.1, d.2, lrm1)
  else (stopTrace, none, lrm1)

/-- Embedding of `LockedResourceManager.Start` (ID revision): a no-op when
already started; otherwise creates a fresh stoppable manager, instantiates
one resource reconciler per enforced resource and one patch reconciler per
enforced patch, and starts the watch loop. -/
def Start (env : ManagerEnv) (lrm : LockedResourceManager) :
    List Action × Option String × LockedResourceManager :=
  if lrm.started then ([], none, lrm)
  else
    match env.newManagerErr with
    | some e => ([], some e, lrm)
    | none =>
      let rr := lrm.resources.map (fun r =>
        ResourceReconcilerState.mk r.obj r.excludedPaths
          [initializingCondition (getGeneration r.obj)])
      let pr := lrm.patches.map (fun p =>
        PatchReconcilerState.mk p [("reconciler", [initializingCondition 0])])
      ([Action.startManager], none, ⟨true, lrm.resources, lrm.patches, rr, pr⟩)

/-- Embedding of `LockedResourceManager.Restart` (ID revision): stop when
started (ignoring the stop result), replace the enforced sets, then start
the new runtime host. -/
def Restart (env : ManagerEnv) (lrm : LockedResourceManager)
    (resources : List LockedResource) (patches : List LockedPatch)
    (deleteResources : Bool) :
    List Action × Option String × LockedResourceManager :=
  let s := if lrm.started then Stop env lrm deleteResources else ([], none, lrm)
  let lrm0 := s.2.2
  match SetResources env lrm0 resources with
  | (tr1, some e, lrm1) => (s.1 ++ tr1, some e, lrm1)
  | (tr1, none, lrm1) =>
    match SetPatches env lrm1 patches with
    | (tr2, some e, lrm2) => (s.1 ++ tr1 ++ tr2, some e, lrm2)
    | (tr2, none, lrm2) =>
      let st := Start env lrm2
      (s.1 ++ tr1 ++ tr2 ++ st.1, st.2.1, st.2.2)

/-- Embedding of `LockedResourceManager.IsSameResources`.
Modelled from the spec: the `lockedresourceset` package is not among the
sources; per the spec, resource equality is deep equality of the
serialized object together with its `excludedPaths`, and the returned
values are the two set differences, the intersection, and set equality. -/
def IsSameResources (lrm : LockedResourceManager) (resources : List LockedResource) :
    Bool × List LockedResource × List LockedResource × List LockedResource :=
  let currentResources := lrm.resources
  let leftDifference := currentResources.filter (fun r => !(resources.contains r))
  let intersection := currentResources.filter (fun r => resources.contains r)
  let rightDifference := resources.filter (fun r => !(currentResources.contains r))
  let same := leftDifference.isEmpty && rightDifference.isEmpty
  (same, leftDifference, intersection, rightDifference)

/-- Embedding of `LockedResourceManager.IsSamePatches` (ID revision):
patches are compared through the string set of their IDs
(`GetLockedPatchMap` keys); the differences are mapped back through the
patch maps. -/
def IsSamePatches (lrm : LockedResourceManager) (patches : List LockedPatch) :
    Bool × List LockedPatch × List LockedPatch × List LockedPatch :=
  let currentIDs := lrm.patches.map (fun p => p.id)
  let newIDs := patches.map (fun p => p.id)
  let leftDifference := lrm.patches.filter (fun p => !(newIDs.contains p.id))
  let intersection := lrm.patches.filter (fun p => newIDs.contains p.id)
  let rightDifference := patches.filter (fun p => !(currentIDs.contains p.id))
  let same := currentIDs.all (fun i => newIDs.contains i)
    && newIDs.all (fun i => currentIDs.contains i)
  (same, leftDifference, intersection, rightDifference)

/-- Embedding of `getToBeDeletdResources` (enforcing-reconciler.go):
keeps, of the modified (no-longer-equal) resources, those whose full key
(`GetKeyLong`) is absent from the needed resources. -/
def getToBeDeletdResources (neededResources modifiedResources : List LockedResource) :
    List LockedResource :=
  let neededKeys := neededResources.map (fun r => GetKeyLong r.obj)
  modifiedResources.filter (fun r => !(neededKeys.contains (GetKeyLong r.obj)))

/-- Embedding of `EnforcingReconciler.UpdateLockedResourcesWithRestConfig`
(enforcing-reconciler.go): when either set differs from the currently
enforced one, delete the no-longer-needed resources from the cluster
(fail fast), then restart the manager on the new sets. -/
def UpdateLockedResources (env : ManagerEnv) (lrm : LockedResourceManager)
    (lockedResources : List LockedResource) (lockedPatches : List LockedPatch) :
    List Action × Option String × LockedResourceManager :=
  let sr := IsSameResources lrm lockedResources
  let toBeDeleted := getToBeDeletdResources lockedResources sr.2.1
  let sp := IsSamePatches lrm lockedPatches
  if !sr.1 || !sp.1 then
    let d := DeleteUnstructuredResources env (toBeDeleted.map (fun r => r.obj))
    match d.2 with
    | some e => (d.1, some e, lrm)
    | none =>
      let r := Restart env lrm lockedResources lockedPatches false
      (d.1 ++ r.1, r.2.1, r.2.2)
  else ([], none, lrm)

theorem deleteUnstructured_success (env : ManagerEnv) (objs : List Json)
    (h : ∀ o ∈ objs, env.deleteErr (GetKeyLong o) = none) :
    DeleteUnstructuredResources env objs =
      (objs.map (fun o => Action.deleteResource (GetKeyLong o)), none) := by
  induction objs with
  | nil => rfl
  | cons o rest ih =>
    have ho : env.deleteErr (GetKeyLong o) = none := h o (List.mem_cons_self _ _)
    simp only [DeleteUnstructuredResources, ho, List.map_cons,
      ih (fun x hx => h x (List.mem_cons_of_mem _ hx))]

theorem deleteUnstructured_only_deletes (env : ManagerEnv) (objs : List Json) :
    ∀ a ∈ (DeleteUnstructuredResources env objs).1, ∃ k, a = Action.deleteResource k := by
  induction objs with
  | nil => intro a ha; simp [DeleteUnstructuredResources] at ha
  | cons o rest ih =>
    intro a ha
    simp only [DeleteUnstructuredResources] at ha
    cases hd : env.deleteErr (GetKeyLong o) with
    | some e =>
      rw [hd] at ha
      simp only [List.mem_singleton] at ha
      exact ⟨GetKeyLong o, ha⟩
    | none =>
      rw [hd] at ha
      simp only [List.mem_cons] at ha
      rcases ha with ha | ha
      · exact ⟨GetKeyLong o, ha⟩
      · exact ih a ha

theorem contains_true_iff {α : Type} [BEq α] [LawfulBEq α] (l : List α) (a : α) :
    l.contains a = true ↔ a ∈ l := List.elem_iff

theorem contains_false_iff {α : Type} [BEq α] [LawfulBEq α] (l : List α) (a : α) :
    l.contains a = false ↔ ¬ a ∈ l := by
  rw [← contains_true_iff l a]
  exact ⟨fun h hc => by rw [h] at hc; exact Bool.false_ne_true hc,
    fun h => Bool.eq_false_iff.mpr h⟩

theorem toBeDeleted_key_mem (lrm : LockedResourceManager) (D : List LockedResource)
    (k : String) :
    k ∈ (getToBeDeletdResources D (IsSameResources lrm D).2.1).map
        (fun r => GetKeyLong r.obj)
    ↔ (k ∈ lrm.resources.map (fun r => GetKeyLong r.obj)
        ∧ ¬ k ∈ D.map (fun r => GetKeyLong r.obj)) := by
  simp only [getToBeDeletdResources, IsSameResources, List.mem_map, List.mem_filter,
    Bool.not_eq_true', contains_false_iff]
  constructor
  · rintro ⟨r, ⟨⟨hrcur, _hnotinD⟩, hkeys⟩, hk⟩
    subst hk
    exact ⟨⟨r, hrcur, rfl⟩, hkeys⟩
  · rintro ⟨⟨r, hrcur, hk⟩, hnot⟩
    refine ⟨r, ⟨⟨hrcur, ?_⟩, ?_⟩, hk⟩
    · intro hrD
      exact hnot ⟨r, hrD, hk⟩
    · rintro ⟨a, haD, hka⟩
      exact hnot ⟨a, haD, hka.trans hk⟩

theorem restart_success (env : ManagerEnv) (lrm : LockedResourceManager)
    (D : List LockedResource) (P : List LockedPatch)
    (hstarted : lrm.started = true)
    (hv1 : env.validateResourcesErr D = none)
    (hids : checkPatchIDs [] P = none)
    (hv2 : env.validatePatchesErr P = none)
    (hnm : env.newManagerErr = none) :
    Restart env lrm D P false =
      ([Action.stopManager, Action.setResources D, Action.setPatches P, Action.startManager],
        none,
        ⟨true, D, P,
          D.map (fun r => ResourceReconcilerState.mk r.obj r.excludedPaths
            [initializingCondition (getGeneration r.obj)]),
          P.map (fun p => PatchReconcilerState.mk p
            [("reconciler", [initializingCondition 0])])⟩) := by
  simp only [Restart, Stop, Start, SetResources, SetPatches, hstarted, if_true, if_false,
    hv1, hids, hv2, hnm, Bool.false_eq_true, List.cons_append, List.nil_append,
    List.singleton_append]

/-- C3: when the desired sets differ from the enforced ones, `Update`
deletes exactly the currently enforced resources whose full key is absent
from the desired set, fails fast on the first deletion error (performing
no restart), and on success performs the deletions strictly before
stopping the runtime host, replacing the enforced sets, and starting the
new host that re-instantiates the workers. -/
theorem updateLockedResources_spec (env : ManagerEnv) (lrm : LockedResourceManager)
    (D : List LockedResource) (P : List LockedPatch)
    (hstarted : lrm.started = true)
    (hdiff : (!(IsSameResources lrm D).1 || !(IsSamePatches lrm P).1) = true) :
    (∀ k, k ∈ (getToBeDeletdResources D (IsSameResources lrm D).2.1).map
          (fun r => GetKeyLong r.obj)
        ↔ (k ∈ lrm.resources.map (fun r => GetKeyLong r.obj)
            ∧ ¬ k ∈ D.map (fun r => GetKeyLong r.obj)))
    ∧ (∀ e, (DeleteUnstructuredResources env
          ((getToBeDeletdResources D (IsSameResources lrm D).2.1).map
            (fun r => r.obj))).2 = some e →
        UpdateLockedResources env lrm D P =
          ((DeleteUnstructuredResources env
            ((getToBeDeletdResources D (IsSameResources lrm D).2.1).map
              (fun r => r.obj))).1,
            some e, lrm))
    ∧ ((∀ r ∈ getToBeDeletdResources D (IsSameResources lrm D).2.1,
          env.deleteErr (GetKeyLong r.obj) = none) →
        env.validateResourcesErr D = none → checkPatchIDs [] P = none →
        env.validatePatchesErr P = none → env.newManagerErr = none →
        UpdateLockedResources env lrm D P =
          ((getToBeDeletdResources D (IsSameResources lrm D).2.1).map
              (fun r => Action.deleteResource (GetKeyLong r.obj))
            ++ [Action.stopManager, Action.setResources D, Action.setPatches P,
              Action.startManager],
            none,
            ⟨true, D, P,
              D.map (fun r => ResourceReconcilerState.mk r.obj r.excludedPaths
                [initializingCondition (getGeneration r.obj)]),
              P.map (fun p => PatchReconcilerState.mk p
                [("reconciler", [initializingCondition 0])])⟩)) := by
  refine ⟨toBeDeleted_key_mem lrm D, ?_, ?_⟩
  · intro e he
    simp only [UpdateLockedResources, hdiff, if_true, he]
  · intro hdel hv1 hids hv2 hnm
    have hobjs : ∀ o ∈ (getToBeDeletdResources D (IsSameResources lrm D).2.1).map
        (fun r => r.obj), env.deleteErr (GetKeyLong o) = none := by
      intro o ho
      simp only [List.mem_map] at ho
      obtain ⟨r, hr, rfl⟩ := ho
      exact hdel r hr
    have hd := deleteUnstructured_success env
      ((getToBeDeletdResources D (IsSameResources lrm D).2.1).map (fun r => r.obj)) hobjs
    have hr := restart_success env lrm D P hstarted hv1 hids hv2 hnm
    simp only [UpdateLockedResources, hdiff, if_true, hd, hr, List.map_map]
    rfl

theorem isSameResources_self (lrm : LockedResourceManager) (D : List LockedResource)
    (h : lrm.resources = D) : (IsSameResources lrm D).1 = true := by
  simp only [IsSameResources, h, Bool.and_eq_true, List.isEmpty_iff]
  constructor
  · rw [List.filter_eq_nil_iff]
    intro a ha
    simp [contains_true_iff, ha]
  · rw [List.filter_eq_nil_iff]
    intro a ha
    simp [contains_true_iff, ha]

theorem isSamePatches_self (lrm : LockedResourceManager) (P : List LockedPatch)
    (h : lrm.patches = P) : (IsSamePatches lrm P).1 = true := by
  simp only [IsSamePatches, h, Bool.and_eq_true]
  constructor
  · rw [List.all_eq_true]
    intro a ha
    simp [contains_true_iff, ha]
  · rw [List.all_eq_true]
    intro a ha
    simp [contains_true_iff, ha]

theorem restart_none_state (env : ManagerEnv) (lrm : LockedResourceManager)
    (D : List LockedResource) (P : List LockedPatch) (b : Bool)
    (h : (Restart env lrm D P b).2.1 = none) :
    (Restart env lrm D P b).2.2.resources = D ∧ (Restart env lrm D P b).2.2.patches = P := by
  simp only [Restart] at h ⊢
  rcases hsr : SetResources env (if lrm.started then Stop env lrm b else ([], none, lrm)).2.2 D
    with ⟨tr1, e1, lrm1⟩
  cases e1 with
  | some e => simp [hsr] at h
  | none =>
    have hres : lrm1.resources = D := by
      simp only [SetResources] at hsr
      by_cases hst : (if lrm.started then Stop env lrm b else ([], none, lrm)).2.2.started
      · simp [hst] at hsr
      · simp only [hst, Bool.false_eq_true, if_false] at hsr
        rcases hvr : env.validateResourcesErr D with _ | e
        · rw [hvr] at hsr
          cases hsr
          rfl
        · rw [hvr] at hsr
          cases hsr
    rcases hsp : SetPatches env lrm1 P with ⟨tr2, e2, lrm2⟩
    cases e2 with
    | some e => simp [hsr, hsp] at h
    | none =>
      have hpat : lrm2.patches = P ∧ lrm2.resources = lrm1.resources := by
        simp only [SetPatches] at hsp
        by_cases hst : lrm1.started
        · simp [hst] at hsp
        · simp only [hst, Bool.false_eq_true, if_false] at hsp
          rcases hci : checkPatchIDs [] P with _ | e
          · rw [hci] at hsp
            rcases hvp : env.validatePatchesErr P with _ | e
            · rw [hvp] at hsp
              cases hsp
              exact ⟨rfl, rfl⟩
            · rw [hvp] at hsp
              cases hsp
          · rw [hci] at hsp
            cases hsp
      simp only [hsr, hsp] at h ⊢
      simp only [Start] at h ⊢
      by_cases hst : lrm2.started
      · simp only [hst, if_true]
        exact ⟨hpat.2.trans hres, hpat.1⟩
      · simp only [hst, Bool.false_eq_true, if_false] at h ⊢
        rcases hnm : env.newManagerErr with _ | e
        · simp only [hnm]
          exact ⟨hpat.2.trans hres, hpat.1⟩
        · simp [hnm] at h

/-- C4: `Update` is idempotent on an unchanged desired set: after any
successful `Update(D, P)`, running `Update(D, P)` again performs no
actions at all (no deletions, no stop, no set, no start), returns
success, and leaves the manager state untouched. -/
theorem updateLockedResources_roundtrip (env env2 : ManagerEnv)
    (lrm : LockedResourceManager) (D : List LockedResource) (P : List LockedPatch)
    (hsucc : (UpdateLockedResources env lrm D P).2.1 = none) :
    UpdateLockedResources env2 (UpdateLockedResources env lrm D P).2.2 D P =
      ([], none, (UpdateLockedResources env lrm D P).2.2) := by
  by_cases hc : (!(IsSameResources lrm D).1 || !(IsSamePatches lrm P).1) = true
  · have hu : UpdateLockedResources env lrm D P =
        (let d := DeleteUnstructuredResources env
          ((getToBeDeletdResources D (IsSameResources lrm D).2.1).map (fun r => r.obj))
        match d.2 with
        | some e => (d.1, some e, lrm)
        | none =>
          let r := Restart env lrm D P false
          (d.1 ++ r.1, r.2.1, r.2.2)) := by
      simp only [UpdateLockedResources, hc, if_true]
    rcases hd : (DeleteUnstructuredResources env
        ((getToBeDeletdResources D (IsSameResources lrm D).2.1).map (fun r => r.obj))).2
      with _ | e
    · have hu2 : (UpdateLockedResources env lrm D P).2.2 = (Restart env lrm D P false).2.2 := by
        rw [hu]
        simp only [hd]
      have hr : (Restart env lrm D P false).2.1 = none := by
        have : (UpdateLockedResources env lrm D P).2.1 = (Restart env lrm D P false).2.1 := by
          rw [hu]
          simp only [hd]
        rw [← this, hsucc]
      obtain ⟨hres, hpat⟩ := restart_none_state env lrm D P false hr
      have hs1 : (IsSameResources (UpdateLockedResources env lrm D P).2.2 D).1 = true :=
        isSameResources_self _ D (by rw [hu2]; exact hres)
      have hs2 : (IsSamePatches (UpdateLockedResources env lrm D P).2.2 P).1 = true :=
        isSamePatches_self _ P (by rw [hu2]; exact hpat)
      set st1 := (UpdateLockedResources env lrm D P).2.2 with hst1
      simp only [UpdateLockedResources, hs1, hs2, Bool.not_true, Bool.or_self,
        Bool.false_eq_true, if_false]
    · exfalso
      have : (UpdateLockedResources env lrm D P).2.1 = some e := by
        rw [hu]
        simp only [hd]
      rw [hsucc] at this
      cases this
  · have hcf : (!(IsSameResources lrm D).1 || !(IsSamePatches lrm P).1) = false :=
      Bool.eq_false_iff.mpr hc
    have hu : UpdateLockedResources env lrm D P = ([], none, lrm) := by
      simp only [UpdateLockedResources, hcf, Bool.false_eq_true, if_false]
    rw [hu]
    simp only []
    have hs : (IsSameResources lrm D).1 = true ∧ (IsSamePatches lrm P).1 = true := by
      rcases Bool.or_eq_false_iff.mp hcf with ⟨h1, h2⟩
      exact ⟨by simpa using h1, by simpa using h2⟩
    simp only [UpdateLockedResources, hs.1, hs.2, Bool.not_true, Bool.or_self,
      Bool.false_eq_true, if_false]

/-- A concrete ConfigMap-shaped object with the given name. -/
def mkCM (nm : String) : Json :=
  .obj [("apiVersion", .str "v1"), ("kind", .str "ConfigMap"),
        ("metadata", .obj [("name", .str nm), ("namespace", .str "ns1")])]

def cmA : LockedResource := ⟨mkCM "cm-a", DefaultExcludedPaths⟩

def cmB : LockedResource := ⟨mkCM "cm-b", DefaultExcludedPaths⟩

def cmC : LockedResource := ⟨mkCM "cm-c", DefaultExcludedPaths⟩

/-- An environment in which every cluster call succeeds. -/
def env0 : ManagerEnv := ⟨fun _ => none, fun _ => none, fun _ => none, none⟩

/-- A started manager currently enforcing `{cm-a, cm-b}` and no patches. -/
def lrm0 : LockedResourceManager := ⟨true, [cmA, cmB], [], [], []⟩

theorem updateLockedResources_spec_witness :
    UpdateLockedResources env0 lrm0 [cmA, cmC] [] =
      ([Action.deleteResource "v1/ConfigMap/ns1/cm-b", Action.stopManager,
        Action.setResources [cmA, cmC], Action.setPatches [], Action.startManager],
        none,
        ⟨true, [cmA, cmC], [],
          [⟨cmA.obj, cmA.excludedPaths, [initializingCondition 0]⟩,
            ⟨cmC.obj, cmC.excludedPaths, [initializingCondition 0]⟩], []⟩) :=
  (updateLockedResources_spec env0 lrm0 [cmA, cmC] [] rfl (by decide)).2.2
    (fun _ _ => rfl) rfl rfl rfl rfl

theorem updateLockedResources_roundtrip_witness :
    UpdateLockedResources env0 (UpdateLockedResources env0 lrm0 [cmA, cmC] []).2.2
        [cmA, cmC] [] =
      ([], none, (UpdateLockedResources env0 lrm0 [cmA, cmC] []).2.2) :=
  updateLockedResources_roundtrip env0 env0 lrm0 [cmA, cmC] [] rfl

/-- An environment in which validating resources against the API server
fails and all other calls succeed. -/
def envValFail : ManagerEnv :=
  ⟨fun _ => none, fun _ => some "validation failed", fun _ => none, none⟩

/-- C5 counterexample: with the desired sets differing, a validation
failure still returns the validation error, but the update has already
deleted the no-longer-desired `cm-b` from the cluster and left the
runtime host stopped, so running state is altered. -/
theorem updateLockedResources_validation_counterexample :
    UpdateLockedResources envValFail lrm0 [cmA, cmC] [] =
      ([Action.deleteResource "v1/ConfigMap/ns1/cm-b", Action.stopManager],
        some "validation failed",
        ⟨false, [cmA, cmB], [], [], []⟩)
    ∧ lrm0.started = true := ⟨rfl, rfl⟩

/-- C5 (amended): when validation of the desired resources fails during an
`Update` whose desired sets differ (and the deletions succeed), the
validation error is returned and the enforced resource and patch sets are
left unchanged, but the stale-key deletions have already been submitted
and the runtime host is left stopped. -/
theorem updateLockedResources_validation_failure (env : ManagerEnv)
    (lrm : LockedResourceManager) (D : List LockedResource) (P : List LockedPatch)
    (hstarted : lrm.started = true)
    (hdiff : (!(IsSameResources lrm D).1 || !(IsSamePatches lrm P).1) = true)
    (hdel : ∀ r ∈ getToBeDeletdResources D (IsSameResources lrm D).2.1,
      env.deleteErr (GetKeyLong r.obj) = none)
    (e : String) (hval : env.validateResourcesErr D = some e) :
    UpdateLockedResources env lrm D P =
      ((getToBeDeletdResources D (IsSameResources lrm D).2.1).map
          (fun r => Action.deleteResource (GetKeyLong r.obj)) ++ [Action.stopManager],
        some e,
        ⟨false, lrm.resources, lrm.patches, lrm.resourceReconcilers,
          lrm.patchReconcilers⟩) := by
  have hobjs : ∀ o ∈ (getToBeDeletdResources D (IsSameResources lrm D).2.1).map
      (fun r => r.obj), env.deleteErr (GetKeyLong o) = none := by
    intro o ho
    simp only [List.mem_map] at ho
    obtain ⟨r, hr, rfl⟩ := ho
    exact hdel r hr
  have hd := deleteUnstructured_success env
    ((getToBeDeletdResources D (IsSameResources lrm D).2.1).map (fun r => r.obj)) hobjs
  simp only [UpdateLockedResources, hdiff, if_true, hd, Restart, Stop, SetResources,
    hstarted, if_true, if_false, Bool.false_eq_true, hval, List.map_map, List.append_nil]
  rfl

theorem updateLockedResources_validation_failure_witness :
    UpdateLockedResources envValFail lrm0 [cmA, cmC] [] =
      ([Action.deleteResource "v1/ConfigMap/ns1/cm-b", Action.stopManager],
        some "validation failed",
        ⟨false, [cmA, cmB], [], [], []⟩) :=
  updateLockedResources_validation_failure envValFail lrm0 [cmA, cmC] [] rfl (by decide)
    (fun _ _ => rfl) "validation failed" rfl

theorem checkPatchIDs_none_sound : ∀ (P : List LockedPatch) (seen : List String),
    checkPatchIDs seen P = none →
    (∀ p ∈ P, p.id ≠ "") ∧ (P.map (fun p => p.id)).Nodup
      ∧ (∀ p ∈ P, ¬ p.id ∈ seen) := by
  intro P
  induction P with
  | nil =>
    intro seen _
    exact ⟨fun p hp => absurd hp (List.not_mem_nil p),
      List.nodup_nil, fun p hp => absurd hp (List.not_mem_nil p)⟩
  | cons p rest ih =>
    intro seen h
    by_cases h1 : (p.id == "") = true
    · simp [checkPatchIDs, h1] at h
    · by_cases h2 : p.id ∈ seen
      · simp [checkPatchIDs, h1, h2] at h
      · have h3 : checkPatchIDs (p.id :: seen) rest = none := by
          simpa [checkPatchIDs, h1, h2] using h
        obtain ⟨hne, hnodup, hnotin⟩ := ih (p.id :: seen) h3
        refine ⟨?_, ?_, ?_⟩
        · intro q hq
          rcases List.mem_cons.mp hq with rfl | hq
          · simpa using h1
          · exact hne q hq
        · rw [List.map_cons, List.nodup_cons]
          refine ⟨?_, hnodup⟩
          intro hmem
          simp only [List.mem_map] at hmem
          obtain ⟨q, hq, hqid⟩ := hmem
          exact (hnotin q hq) (by rw [hqid]; exact List.mem_cons_self _ _)
        · intro q hq
          rcases List.mem_cons.mp hq with rfl | hq
          · exact fun hmem => h2 hmem
          · exact fun hmem => (hnotin q hq) (List.mem_cons_of_mem _ hmem)

theorem setResources_patches (env : ManagerEnv) (lrm : LockedResourceManager)
    (rs : List LockedResource) : (SetResources env lrm rs).2.2.patches = lrm.patches := by
  simp only [SetResources]
  by_cases h : lrm.started = true
  · simp [h]
  · simp only [h, Bool.false_eq_true, if_false]
    cases env.validateResourcesErr rs <;> rfl

theorem stop_state (env : ManagerEnv) (lrm : LockedResourceManager) (b : Bool) :
    (Stop env lrm b).2.2 =
      ⟨false, lrm.resources, lrm.patches, lrm.resourceReconcilers,
        lrm.patchReconcilers⟩ := by
  cases b <;> rfl

theorem setPatches_bad (env : ManagerEnv) (lrm1 : LockedResourceManager)
    (P : List LockedPatch) (ec : String) (hsome : checkPatchIDs [] P = some ec) :
    ∃ e, SetPatches env lrm1 P = ([], some e, lrm1) := by
  by_cases h : lrm1.started = true
  · exact ⟨"cannot set resources while enforcing is on", by simp [SetPatches, h]⟩
  · exact ⟨ec, by simp [SetPatches, h, hsome]⟩

theorem restart_bad_patches (env : ManagerEnv) (lrm : LockedResourceManager)
    (D : List LockedResource) (P : List LockedPatch) (b : Bool) (ec : String)
    (hsome : checkPatchIDs [] P = some ec) :
    (Restart env lrm D P b).2.2.patches = lrm.patches
      ∧ ∃ e, (Restart env lrm D P b).2.1 = some e := by
  simp only [Restart]
  have hstop : (if lrm.started then Stop env lrm b else ([], none, lrm)).2.2.patches
      = lrm.patches := by
    by_cases h : lrm.started = true
    · simp [h, stop_state]
    · simp [h]
  rcases hsr : SetResources env (if lrm.started then Stop env lrm b else ([], none, lrm)).2.2 D
    with ⟨tr1, e1, lrm1⟩
  have hlrm1 : lrm1.patches = lrm.patches := by
    have := setResources_patches env
      (if lrm.started then Stop env lrm b else ([], none, lrm)).2.2 D
    rw [hsr] at this
    exact this.trans hstop
  cases e1 with
  | some e => exact ⟨hlrm1, e, rfl⟩
  | none =>
    obtain ⟨e, hsp⟩ := setPatches_bad env lrm1 P ec hsome
    simp only [hsp]
    exact ⟨hlrm1, e, rfl⟩

/-- C7 (amended): an `Update` carrying two patches that share a name, or a
patch with an empty name, never installs them: the enforced patch set is
left untouched, and whenever the call attempts a restart (the desired sets
are judged different from the enforced ones) it fails with an error; when
the desired sets are judged unchanged the call succeeds without side
effects. -/
theorem updateLockedResources_bad_patch_names (env : ManagerEnv)
    (lrm : LockedResourceManager) (D : List LockedResource) (P : List LockedPatch)
    (hbad : ¬ ((∀ p ∈ P, p.id ≠ "") ∧ (P.map (fun p => p.id)).Nodup)) :
    (UpdateLockedResources env lrm D P).2.2.patches = lrm.patches
    ∧ ((!(IsSameResources lrm D).1 || !(IsSamePatches lrm P).1) = true →
        ∃ e, (UpdateLockedResources env lrm D P).2.1 = some e) := by
  have hcheck : ∃ ec, checkPatchIDs [] P = some ec := by
    rcases hc : checkPatchIDs [] P with _ | ec
    · obtain ⟨h1, h2, _⟩ := checkPatchIDs_none_sound P [] hc
      exact absurd ⟨h1, h2⟩ hbad
    · exact ⟨ec, rfl⟩
  obtain ⟨ec, hec⟩ := hcheck
  by_cases hc : (!(IsSameResources lrm D).1 || !(IsSamePatches lrm P).1) = true
  · rcases hd : (DeleteUnstructuredResources env
        ((getToBeDeletdResources D (IsSameResources lrm D).2.1).map (fun r => r.obj))).2
      with _ | e
    · obtain ⟨hpat, e, herr⟩ := restart_bad_patches env lrm D P false ec hec
      constructor
      · simp only [UpdateLockedResources, hc, if_true, hd]
        exact hpat
      · intro _
        refine ⟨e, ?_⟩
        simp only [UpdateLockedResources, hc, if_true, hd]
        exact herr
    · constructor
      · simp only [UpdateLockedResources, hc, if_true, hd]
      · intro _
        refine ⟨e, ?_⟩
        simp only [UpdateLockedResources, hc, if_true, hd]
  · have hcf : (!(IsSameResources lrm D).1 || !(IsSamePatches lrm P).1) = false :=
      Bool.eq_false_iff.mpr hc
    constructor
    · simp only [UpdateLockedResources, hcf, Bool.false_eq_true, if_false]
    · intro htrue
      rw [hcf] at htrue
      cases htrue

/-- A trivially small concrete target reference. -/
def targetRefCM : TargetObjectReference := ⟨"v1", "ConfigMap", "ns1", "", none, none⟩

def patchP : LockedPatch :=
  ⟨"p1", [], targetRefCM, "application/strategic-merge-patch+json", "tmplA"⟩

def patchQ : LockedPatch :=
  ⟨"p1", [], targetRefCM, "application/strategic-merge-patch+json", "tmplB"⟩

/-- A started manager currently enforcing no resources and the patch `p1`. -/
def lrmP : LockedResourceManager := ⟨true, [], [patchP], [], []⟩

/-- C7 counterexample: an `Update` carrying two distinct patches that share
the name `p1`, against a manager already enforcing a patch named `p1`,
returns success (no error) instead of failing: the patch-name sets being
equal, no restart is attempted and `SetPatches` never runs. -/
theorem updateLockedResources_duplicate_counterexample :
    UpdateLockedResources env0 lrmP [] [patchP, patchQ] = ([], none, lrmP)
    ∧ patchP.id = patchQ.id ∧ patchP ≠ patchQ :=
  ⟨rfl, rfl, by decide⟩

theorem updateLockedResources_bad_patch_names_witness :
    (UpdateLockedResources env0 lrmP [] [patchP, patchQ]).2.2.patches = lrmP.patches :=
  (updateLockedResources_bad_patch_names env0 lrmP [] [patchP, patchQ]
    (by intro h; exact absurd h.2 (by decide))).1

/-- A cluster object as seen by the reference resolver: identity plus its
label and annotation maps. -/
structure KubeObject where
  apiVersion : String
  kind : String
  nspace : String
  name : String
  labelPairs : List (String × String)
  annotPairs : List (String × String)
deriving DecidableEq, Repr

/-- `metav1.LabelSelectorAsSelector` followed by `Matches` for a
`matchLabels`-only selector: every required pair must be present; a `nil`
selector matches everything (`labels.Everything()`). -/
def matchesSelector (sel : Option Selector) (pairs : List (String × String)) : Bool :=
  match sel with
  | none => true
  | some s => s.matchLabels.all (fun kv => pairs.lookup kv.1 == some kv.2)

/-- Embedding of `TargetObjectReference.IsSelectingMultipleInstances`
(api/v1alpha1/patch_types.go): returns `(multiple, namespacedSelection)`
from the namespacedness of the kind and the presence of namespace/name. -/
def IsSelectingMultipleInstances (namespaced : Bool) (t : TargetObjectReference) :
    Bool × Bool :=
  if namespaced then
    if t.nspace == "" then (true, false)
    else if t.name == "" then (true, true) else (false, true)
  else (t.name == "", false)

/-- Embedding of `TargetObjectReference.GetReferencedObjects`
(api/v1alpha1/patch_types.go).  `listResult` stands for the item list
returned by the dynamic client for the target's label selector.  The
function then filters client-side by the annotation selector and, when a
name is set, by exact name — but, as in the source, the unfiltered
`objList.Items` is returned when no name is set. -/
def GetReferencedObjects (t : TargetObjectReference) (namespaced : Bool)
    (listResult : List KubeObject) : Except String (List KubeObject) :=
  if !(IsSelectingMultipleInstances namespaced t).1 then
    .error "cannot call this method on a target that does not select multiple instances"
  else
    let annotFilteredList :=
      listResult.filter (fun o => matchesSelector t.annotSelector o.annotPairs)
    if t.name != "" then
      .ok (annotFilteredList.filter (fun o => t.name == o.name))
    else
      .ok listResult

/-- A multi-instance target reference carrying an annotation selector. -/
def annotTarget : TargetObjectReference :=
  ⟨"v1", "ConfigMap", "ns1", "", none, some ⟨[("team", "a")]⟩⟩

/-- A live object that does not satisfy `annotTarget`'s annotation
selector. -/
def objNoAnnot : KubeObject := ⟨"v1", "ConfigMap", "ns1", "cm-x", [], []⟩

/-- C6: at the failing input, the object fails the annotation selector yet
is returned by `GetReferencedObjects`, because the no-name branch returns
the unfiltered list instead of the annotation-filtered one; with a name
set, the same input is filtered correctly. -/
theorem getReferencedObjects_annot_bug :
    matchesSelector annotTarget.annotSelector objNoAnnot.annotPairs = false
    ∧ GetReferencedObjects annotTarget true [objNoAnnot] = .ok [objNoAnnot]
    ∧ GetReferencedObjects
        ⟨"v1", "ConfigMap", "", "cm-x", none, some ⟨[("team", "a")]⟩⟩ true [objNoAnnot] =
        .ok [] :=
  ⟨rfl, rfl, rfl⟩

/-- Embedding of `LockedResourceManager.GetResourceReconcilers`: the
held reconcilers when started, the empty list otherwise. -/
def GetResourceReconcilers (lrm : LockedResourceManager) : List ResourceReconcilerState :=
  if lrm.started then lrm.resourceReconcilers else []

/-- Embedding of `LockedResourceManager.GetPatchReconcilers`: the held
patch reconcilers when started, the empty list otherwise. -/
def GetPatchReconcilers (lrm : LockedResourceManager) : List PatchReconcilerState :=
  if lrm.started then lrm.patchReconcilers else []

/-- Embedding of `EnforcingReconciler.GetLockedResourceStatuses`
(enforcing-reconciler.go), with the Go map rendered as an association
list and the `GetLastCondition`/`IsErrorCondition` failing test supplied
as the predicate `isFailing` (its source lives outside this tree). -/
def GetLockedResourceStatuses (returnOnlyFailingStatuses : Bool)
    (isFailing : List Condition → Bool) (lrm : LockedResourceManager) :
    List (String × List Condition) :=
  (GetResourceReconcilers lrm).foldl
    (fun acc r =>
      if returnOnlyFailingStatuses then
        if isFailing r.status then acc ++ [(GetKeyLong r.resource, r.status)] else acc
      else acc ++ [(GetKeyLong r.resource, r.status)])
    []

/-- The inner per-reconciler loop of `GetLockedPatchStatuses`: one entry
per target key of the worker's condition map, filtered in failing-only
mode. -/
def patchStatusEntries (returnOnlyFailingStatuses : Bool)
    (isFailing : List Condition → Bool) (pr : PatchReconcilerState) :
    List (String × List Condition) :=
  pr.status.foldl
    (fun acc2 kv =>
      if returnOnlyFailingStatuses then
        if isFailing kv.2 then acc2 ++ [kv] else acc2
      else acc2 ++ [kv])
    []

/-- Embedding of `EnforcingReconciler.GetLockedPatchStatuses`
(enforcing-reconciler.go): one outer entry per patch reconciler whose
condition map is non-empty, keyed by the patch key. -/
def GetLockedPatchStatuses (returnOnlyFailingStatuses : Bool)
    (isFailing : List Condition → Bool) (lrm : LockedResourceManager) :
    List (String × List (String × List Condition)) :=
  (GetPatchReconcilers lrm).foldl
    (fun acc pr =>
      if pr.status.isEmpty then acc
      else acc ++ [(pr.patch.id, patchStatusEntries returnOnlyFailingStatuses isFailing pr)])
    []

/-- C10: while a parent's manager is not started, `GetResourceReconcilers`
and `GetPatchReconcilers` return the empty list — even when reconcilers
from a previous run are still held internally — so the status functions
report no per-resource and no per-patch conditions. -/
theorem stopped_manager_statuses (lrm : LockedResourceManager)
    (hstopped : lrm.started = false) (b : Bool) (isFailing : List Condition → Bool) :
    GetResourceReconcilers lrm = [] ∧ GetPatchReconcilers lrm = []
    ∧ GetLockedResourceStatuses b isFailing lrm = []
    ∧ GetLockedPatchStatuses b isFailing lrm = [] := by
  refine ⟨?_, ?_, ?_, ?_⟩ <;>
    simp [GetResourceReconcilers, GetPatchReconcilers, GetLockedResourceStatuses,
      GetLockedPatchStatuses, hstopped]

/-- A stopped manager still internally holding one resource reconciler and
one patch reconciler from its previous run. -/
def lrmStopped : LockedResourceManager :=
  ⟨false, [cmA], [patchP],
    [⟨cmA.obj, cmA.excludedPaths, [successCondition 1]⟩],
    [⟨patchP, [("reconciler", [initializingCondition 0])]⟩]⟩

theorem stopped_manager_statuses_witness :
    GetResourceReconcilers lrmStopped = [] ∧ GetPatchReconcilers lrmStopped = []
    ∧ GetLockedResourceStatuses true (fun _ => true) lrmStopped = []
    ∧ GetLockedPatchStatuses true (fun _ => true) lrmStopped = [] :=
  stopped_manager_statuses lrmStopped rfl true (fun _ => true)

end OperatorUtils
